import Mathlib

/-!
Verification development for the media-lifecycle backend.

The development shallowly embeds three pieces of the source:

* the blob-store adapter (`config/cloudinary.js`): the multer gate
  (5 MiB limit, `image/` MIME filter over memory storage) and the pure
  `extractPublicId` parser;
* the media-lifecycle orchestrator (`controllers/courseController.js`,
  memory-storage generation): `createCourse`, `updateCourse`,
  `deleteCourse`, modelled as functions from an environment (the
  outcomes of the remote calls) to a terminal outcome plus the ordered
  list of side effects they issue;
* the connection cache (`config/db.js`, promise-caching version):
  modelled as an event-loop transition system in which the synchronous
  segment of `connectDB` is one atomic step and promise resolution is
  another.
-/

/-! ## Blob store adapter: `extractPublicId` (config/cloudinary.js lines 82-93)

The JS body is `url.split('/')`, take the last element, `split('.')`,
take the first element.  `splitOnChar` reproduces JavaScript
`String.prototype.split` with a single-character separator: splitting
the empty string yields `[""]`, a separator at the edge yields an empty
segment, and a string without the separator yields a singleton. -/

def consHead (c : Char) : List (List Char) → List (List Char)
  | [] => [[c]]
  | h :: t => (c :: h) :: t

def splitOnChar (sep : Char) : List Char → List (List Char)
  | [] => [[]]
  | c :: rest =>
    if c = sep then [] :: splitOnChar sep rest
    else consHead c (splitOnChar sep rest)

inductive MediaErr
  | malformedReference
deriving DecidableEq

/-- The computation performed by the body of `extractPublicId`:
`parts = url.split('/')`, `filename = parts[parts.length - 1]`,
`publicId = filename.split('.')[0]`. -/
def publicIdOf (url : String) : String :=
  let parts := splitOnChar '/' url.toList
  let filename := parts.getLastD []
  String.mk ((splitOnChar '.' filename).headD [])

/-- `extractPublicId` from config/cloudinary.js.  The source wraps the
body in try/catch and rethrows as an invalid-URL error, but on a string
input none of `split` and element access can throw in JavaScript, so the
catch branch is unreachable and the function always returns normally;
the `Except` codomain keeps the contract's error type. -/
def extractPublicId (url : String) : Except MediaErr String :=
  .ok (publicIdOf url)

/-! ## Orchestrator data model (controllers/courseController.js) -/

/-- One observable side effect issued by a controller, in program order.
`persistUpdate` records the image field passed to `findByIdAndUpdate`;
`deleteBlob` records the public id passed to `deleteImage`. -/
inductive Effect
  | uploadBlob
  | persistCreate
  | persistUpdate (image : Option String)
  | persistDelete
  | deleteBlob (publicId : String)
deriving DecidableEq

inductive Reason
  | missingMedia
  | uploadRejected
  | uploadFailed
  | persistError
  | notFound
  | serverError
deriving DecidableEq

inductive Outcome
  | committed
  | rejected (r : Reason)
deriving DecidableEq

/-- The slice of a course record the lifecycle layer reads: its media
reference.  `none` models a record with no `image` field. -/
structure Course where
  image? : Option String
deriving DecidableEq

/-- The `image` field of a multipart body: either the empty object that
FormData sometimes produces (which `updateCourse` deletes) or a string
value. -/
inductive ImageField
  | emptyObj
  | strVal (s : String)
deriving DecidableEq

structure Payload where
  image? : Option ImageField

structure UploadFile where
  mimeType : String
  size : Nat

structure Req where
  file? : Option UploadFile
  payload : Payload

/-- Environment: the outcome each remote call would have if issued.
`uploadResult` is the `uploadToCloudinary` result (`.ok r` is a
response object whose `secure_url` is `r`; `none` models a response
lacking the field); `blobDeleteResult` is the `deleteImage` outcome,
which every caller swallows inside try/catch. -/
structure Env where
  findResult : Option Course
  uploadResult : Except String (Option String)
  createResult : Except String Unit
  updateResult : Except String Unit
  recordDeleteOk : Bool
  blobDeleteResult : Except String Unit

/-- JavaScript truthiness of an optional string: `undefined`/`null` and
the empty string are falsy. -/
def isTruthy : Option String → Bool
  | none => false
  | some s => !(s == "")

/-! ## The multer gate (config/cloudinary.js lines 30-42)

`upload` uses `multer.memoryStorage()` with `limits.fileSize` of 5 MiB
and a `fileFilter` accepting only MIME types starting with `image/`.
With memory storage both checks run locally while parsing the request
body; a violation aborts the request with an error before the route
handler (and hence before any Cloudinary or MongoDB call) runs. -/

def MAX_FILE_SIZE : Nat := 5 * 1024 * 1024

def IMAGE_MIME : String := "image/"

/-- `file.mimetype.startsWith('image/')`, modelled character-wise. -/
def mimeIsImage (mimeType : String) : Bool :=
  List.isPrefixOf IMAGE_MIME.toList mimeType.toList

def multerAccepts (f : UploadFile) : Bool :=
  mimeIsImage f.mimeType && decide (f.size ≤ MAX_FILE_SIZE)

/-- The `if (course.image) { try { deleteImage(extractPublicId(...)) }
catch ... }` block shared by `updateCourse` and `deleteCourse`: a
best-effort delete of the record's current blob.  The delete effect is
issued whenever the image field is truthy; a failure of the remote
delete is swallowed by the catch, so it does not influence control
flow. -/
def oldDeleteEffects (c : Course) : List Effect :=
  match c.image? with
  | some img =>
    if img == "" then []
    else
      match extractPublicId img with
      | .ok pid => [.deleteBlob pid]
      | .error _ => []
  | none => []

/-! ## createCourse (memory-storage generation) -/

/-- `createCourse`: body after express-validator passes.  No file means
an immediate 400 (`Course image is required`).  Otherwise the buffer is
uploaded; an upload error, or a response without a truthy `secure_url`,
is caught and answered with 400 before any record is touched.  On a
usable `secure_url` the course is created; a `Course.create` failure is
answered 400/500 by the outer catch — the source issues no compensating
delete for the just-uploaded blob. -/
def createCourse (env : Env) (req : Req) : Outcome × List Effect :=
  match req.file? with
  | none => (.rejected .missingMedia, [])
  | some _ =>
    match env.uploadResult with
    | .error _ => (.rejected .uploadFailed, [.uploadBlob])
    | .ok r =>
      if isTruthy r then
        match env.createResult with
        | .error _ => (.rejected .persistError, [.uploadBlob, .persistCreate])
        | .ok _ => (.committed, [.uploadBlob, .persistCreate])
      else (.rejected .uploadFailed, [.uploadBlob])

/-- The `image` field of `updateData` after `updateCourse`'s
normalisation: an empty-object value is deleted, a string value is
kept, an absent field stays absent. -/
def normalizeImage (p : Payload) : Option String :=
  match p.image? with
  | some (.strVal s) => some s
  | _ => none

/-- `updateCourse`: after `findById`, with a new file the buffer is
uploaded; on a truthy `secure_url` the **old** image is deleted
(best-effort) and only then is `findByIdAndUpdate` called with the new
reference.  On upload failure the handler returns 400 with no record
mutation and no delete.  Without a file, the existing image is kept
unless the payload carries an `image` field, and no blob operation
occurs. -/
def updateCourse (env : Env) (req : Req) : Outcome × List Effect :=
  match env.findResult with
  | none => (.rejected .notFound, [])
  | some course =>
    match req.file? with
    | some _ =>
      match env.uploadResult with
      | .error _ => (.rejected .uploadFailed, [.uploadBlob])
      | .ok none => (.rejected .uploadFailed, [.uploadBlob])
      | .ok (some url) =>
        if url == "" then (.rejected .uploadFailed, [.uploadBlob])
        else
          let tr := .uploadBlob :: (oldDeleteEffects course ++ [.persistUpdate (some url)])
          match env.updateResult with
          | .error _ => (.rejected .persistError, tr)
          | .ok _ => (.committed, tr)
    | none =>
      let img := match normalizeImage req.payload with
                 | some s => some s
                 | none => course.image?
      match env.updateResult with
      | .error _ => (.rejected .persistError, [.persistUpdate img])
      | .ok _ => (.committed, [.persistUpdate img])

/-- `deleteCourse`: after `findById`, the blob is deleted first
(best-effort, failure swallowed) and `findByIdAndDelete` runs second;
the 200 response depends only on the record delete. -/
def deleteCourse (env : Env) : Outcome × List Effect :=
  match env.findResult with
  | none => (.rejected .notFound, [])
  | some course =>
    let tr := oldDeleteEffects course ++ [.persistDelete]
    if env.recordDeleteOk then (.committed, tr) else (.rejected .serverError, tr)

/-- Full create request: multer's local gate runs before the controller. -/
def handleCreate (env : Env) (req : Req) : Outcome × List Effect :=
  match req.file? with
  | some f =>
    if multerAccepts f then createCourse env req else (.rejected .uploadRejected, [])
  | none => createCourse env req

/-- Full update request: multer's local gate runs before the controller. -/
def handleUpdate (env : Env) (req : Req) : Outcome × List Effect :=
  match req.file? with
  | some f =>
    if multerAccepts f then updateCourse env req else (.rejected .uploadRejected, [])
  | none => updateCourse env req

example : publicIdOf "https://res.cloudinary.com/demo/image/upload/masters-academy/abc123.jpg" = "abc123" := by decide

example : publicIdOf "abc123" = "abc123" := by decide

/-! ## Lemmas about `splitOnChar` -/

theorem splitOnChar_ne_nil (sep : Char) (s : List Char) : splitOnChar sep s ≠ [] := by
  induction s with
  | nil => simp [splitOnChar]
  | cons c rest ih =>
    simp only [splitOnChar]
    split
    · simp
    · cases h : splitOnChar sep rest with
      | nil => simp [consHead]
      | cons a t => simp [consHead]

theorem splitOnChar_not_mem (sep : Char) (s : List Char) (h : sep ∉ s) :
    splitOnChar sep s = [s] := by
  induction s with
  | nil => rfl
  | cons c rest ih =>
    have hc : c ≠ sep := fun hcs => h (hcs ▸ List.mem_cons_self c rest)
    have hrest : sep ∉ rest := fun hm => h (List.mem_cons_of_mem c hm)
    simp only [splitOnChar, if_neg (fun hcs => hc hcs), ih hrest, consHead]

theorem splitOnChar_length_two (sep : Char) (s : List Char) (h : sep ∈ s) :
    2 ≤ (splitOnChar sep s).length := by
  induction s with
  | nil => cases h
  | cons c rest ih =>
    simp only [splitOnChar]
    split
    · have := splitOnChar_ne_nil sep rest
      cases hr : splitOnChar sep rest with
      | nil => exact absurd hr this
      | cons a t => simp
    · rename_i hc
      have hm : sep ∈ rest := by
        rcases List.mem_cons.mp h with h1 | h1
        · exact absurd h1.symm hc
        · exact h1
      cases hr : splitOnChar sep rest with
      | nil => exact absurd hr (splitOnChar_ne_nil sep rest)
      | cons a t =>
        have := ih hm
        rw [hr] at this
        simpa [consHead] using this

theorem splitOnChar_headD (sep : Char) (pre rest : List Char) (h : sep ∉ pre) :
    (splitOnChar sep (pre ++ sep :: rest)).headD [] = pre := by
  induction pre with
  | nil => simp [splitOnChar]
  | cons c pre ih =>
    have hc : c ≠ sep := fun hcs => h (hcs ▸ List.mem_cons_self c pre)
    have hpre : sep ∉ pre := fun hm => h (List.mem_cons_of_mem c hm)
    simp only [List.cons_append, splitOnChar, if_neg (fun hcs => hc hcs)]
    cases hr : splitOnChar sep (pre ++ sep :: rest) with
    | nil => exact absurd hr (splitOnChar_ne_nil sep _)
    | cons a t =>
      have := ih hpre
      rw [hr] at this
      simp only [List.headD_cons] at this
      simp [consHead, this]

theorem splitOnChar_getLastD (sep : Char) (pre suf : List Char) (h : sep ∉ suf) :
    (splitOnChar sep (pre ++ sep :: suf)).getLastD [] = suf := by
  induction pre with
  | nil =>
    simp [splitOnChar, splitOnChar_not_mem sep suf h]
  | cons c pre ih =>
    simp only [List.cons_append, splitOnChar]
    split
    · cases hr : splitOnChar sep (pre ++ sep :: suf) with
      | nil => exact absurd hr (splitOnChar_ne_nil sep _)
      | cons a t =>
        rw [hr] at ih
        simpa using ih
    · have hmem : sep ∈ pre ++ sep :: suf :=
        List.mem_append.mpr (Or.inr (List.mem_cons_self sep suf))
      cases hr : splitOnChar sep (pre ++ sep :: suf) with
      | nil => exact absurd hr (splitOnChar_ne_nil sep _)
      | cons a t =>
        have hlen := splitOnChar_length_two sep _ hmem
        rw [hr] at hlen ih
        cases t with
        | nil => simp at hlen
        | cons b t' =>
          simpa [consHead] using ih

/-- General shape of `extractPublicId` on a well-formed reference:
for any prefix, a final path segment `stem.ext` with `stem` free of
slashes and dots and `ext` free of slashes, the extracted public id is
`stem`. -/
theorem extractPublicId_ok (pre stem ext : List Char)
    (hstem1 : '/' ∉ stem) (hstem2 : '.' ∉ stem) (hext : '/' ∉ ext) :
    extractPublicId (String.mk (pre ++ '/' :: (stem ++ '.' :: ext))) =
      .ok (String.mk stem) := by
  have hsuf : '/' ∉ stem ++ '.' :: ext := by
    intro hm
    rcases List.mem_append.mp hm with h1 | h1
    · exact hstem1 h1
    · rcases List.mem_cons.mp h1 with h2 | h2
      · exact absurd h2 (by decide)
      · exact hext h2
  have h1 : (splitOnChar '/' (pre ++ '/' :: (stem ++ '.' :: ext))).getLastD []
      = stem ++ '.' :: ext := splitOnChar_getLastD '/' pre _ hsuf
  have h2 : (splitOnChar '.' (stem ++ '.' :: ext)).headD [] = stem :=
    splitOnChar_headD '.' stem ext hstem2
  simp only [extractPublicId, publicIdOf]
  show Except.ok (String.mk ((splitOnChar '.'
      ((splitOnChar '/' (pre ++ '/' :: (stem ++ '.' :: ext))).getLastD [])).headD []))
    = Except.ok (String.mk stem)
  rw [h1, h2]

/-- Discriminator for blob-delete effects. -/
def isDeleteBlob : Effect → Bool
  | .deleteBlob _ => true
  | _ => false

/-! ## Claim theorems: blob store adapter -/

/-- Claim C5, counterexample: on a reference with no path segment and no
extension separator, `extractPublicId` returns the whole string wrapped
in `.ok`; it does not fail with `MalformedReference` as the claim
states. -/
theorem extractPublicId_no_separator_cex :
    extractPublicId "abc123" = .ok "abc123" ∧
    extractPublicId "abc123" ≠ .error .malformedReference := by
  refine ⟨?_, ?_⟩
  · show Except.ok (publicIdOf "abc123") = Except.ok "abc123"
    rw [show publicIdOf "abc123" = "abc123" from by decide]
  · intro h
    simp [extractPublicId] at h

/-- Claim C5 (amended): for a well-formed reference `base/.../stem.ext`
the extracted public id is `stem`, as claimed; but on a reference with
no path segment or no extension separator `extractPublicId` does not
fail — it returns `.ok` on every string input (the error branch of the
source is unreachable), yielding the whole last segment unchanged. -/
theorem extractPublicId_roundtrip_amended :
    (∀ pre stem ext : List Char, '/' ∉ stem → '.' ∉ stem → '/' ∉ ext →
      extractPublicId (String.mk (pre ++ '/' :: (stem ++ '.' :: ext))) =
        .ok (String.mk stem)) ∧
    ∀ url : String, extractPublicId url = .ok (publicIdOf url) :=
  ⟨extractPublicId_ok, fun _ => rfl⟩

theorem extractPublicId_roundtrip_amended_witness :
    extractPublicId (String.mk ("https://host/folder".toList ++ '/' ::
        ("abc123".toList ++ '.' :: "jpg".toList))) =
      .ok (String.mk "abc123".toList) :=
  extractPublicId_roundtrip_amended.1 "https://host/folder".toList "abc123".toList
    "jpg".toList (by decide) (by decide) (by decide)

/-! ## Claim theorems: orchestrator -/

/-- Claim C1, counterexample: a Replace with new bytes, successful
upload and successful persist issues the old-reference delete BEFORE
the repository update — the delete is at index 1, the update at
index 2 of the effect trace. -/
theorem updateCourse_delete_before_persist_cex :
    handleUpdate
        ⟨some ⟨some "h/old.jpg"⟩, .ok (some "h/new.png"), .ok (), .ok (), true, .ok ()⟩
        ⟨some ⟨"image/png", 100⟩, ⟨none⟩⟩ =
      (.committed, [.uploadBlob, .deleteBlob "old", .persistUpdate (some "h/new.png")]) ∧
    List.indexOf (Effect.deleteBlob "old")
        [Effect.uploadBlob, Effect.deleteBlob "old", Effect.persistUpdate (some "h/new.png")] <
      List.indexOf (Effect.persistUpdate (some "h/new.png"))
        [Effect.uploadBlob, Effect.deleteBlob "old", Effect.persistUpdate (some "h/new.png")] := by
  decide

/-- Claim C1 (amended): for every Replace with new bytes whose upload
succeeds on a record with a truthy image field, the delete of the old
reference is issued immediately after the upload and BEFORE the
repository update — whether or not the update then succeeds, so the
record can briefly reference an already-deleted blob. -/
theorem updateCourse_delete_precedes_persist (env : Env) (req : Req)
    (f : UploadFile) (course : Course) (old url : String)
    (hf : req.file? = some f) (hm : multerAccepts f = true)
    (hfind : env.findResult = some course)
    (hold : course.image? = some old) (holdne : old ≠ "")
    (hup : env.uploadResult = .ok (some url)) (hurl : url ≠ "") :
    (handleUpdate env req).2 =
      [.uploadBlob, .deleteBlob (publicIdOf old), .persistUpdate (some url)] := by
  have hbu : (url == "") = false := by simpa using hurl
  have hbo : (old == "") = false := by simpa using holdne
  cases henv : env.updateResult <;>
    simp [handleUpdate, hf, hm, updateCourse, hfind, hup, hbu, henv,
      oldDeleteEffects, hold, hbo, extractPublicId]

theorem updateCourse_delete_precedes_persist_witness :
    (handleUpdate
        ⟨some ⟨some "h/old.jpg"⟩, .ok (some "h/new.png"), .ok (), .error "boom", true, .ok ()⟩
        ⟨some ⟨"image/png", 100⟩, ⟨none⟩⟩).2 =
      [.uploadBlob, .deleteBlob (publicIdOf "h/old.jpg"), .persistUpdate (some "h/new.png")] :=
  updateCourse_delete_precedes_persist _ _ _ _ "h/old.jpg" "h/new.png"
    rfl (by decide) rfl rfl (by decide) rfl (by decide)

/-- Claim C2, counterexample: deleting a course with an image issues the
BLOB delete first (index 0) and the repository record delete second
(index 1), the reverse of the claimed order. -/
theorem deleteCourse_blob_first_cex :
    deleteCourse ⟨some ⟨some "h/old.jpg"⟩, .ok none, .ok (), .ok (), true, .ok ()⟩ =
      (.committed, [.deleteBlob "old", .persistDelete]) ∧
    List.indexOf (Effect.deleteBlob "old") [Effect.deleteBlob "old", Effect.persistDelete] <
      List.indexOf Effect.persistDelete [Effect.deleteBlob "old", Effect.persistDelete] := by
  decide

/-- Claim C2 (amended): for every Delete of an existing record with a
truthy image field, the blob delete is issued FIRST (best-effort: the
remote delete outcome is swallowed and does not influence the result)
and the repository record delete second; the operation is Committed
exactly when the record delete succeeds. -/
theorem deleteCourse_blob_then_record (env : Env) (course : Course) (old : String)
    (hfind : env.findResult = some course)
    (hold : course.image? = some old) (holdne : old ≠ "") :
    deleteCourse env =
      (if env.recordDeleteOk then Outcome.committed else .rejected .serverError,
       [.deleteBlob (publicIdOf old), .persistDelete]) := by
  have hbo : (old == "") = false := by simpa using holdne
  cases hrec : env.recordDeleteOk <;>
    simp [deleteCourse, hfind, oldDeleteEffects, hold, hbo, extractPublicId, hrec]

theorem deleteCourse_blob_then_record_witness :
    deleteCourse ⟨some ⟨some "h/old.jpg"⟩, .ok none, .ok (), .ok (), false, .error "net"⟩ =
      (if false then Outcome.committed else .rejected .serverError,
       [.deleteBlob (publicIdOf "h/old.jpg"), .persistDelete]) :=
  deleteCourse_blob_then_record _ _ "h/old.jpg" rfl rfl (by decide)

/-- Claim C3, counterexample: a Create whose upload succeeds and whose
persist fails ends Rejected with effect trace
`[uploadBlob, persistCreate]` — the number of deletes issued for the
newly uploaded reference is 0, not the claimed exactly-once. -/
theorem createCourse_no_cleanup_cex :
    handleCreate
        ⟨none, .ok (some "h/new.png"), .error "validation failed", .ok (), true, .ok ()⟩
        ⟨some ⟨"image/png", 100⟩, ⟨none⟩⟩ =
      (.rejected .persistError, [.uploadBlob, .persistCreate]) ∧
    List.countP isDeleteBlob [Effect.uploadBlob, Effect.persistCreate] = 0 := by
  decide

/-- Claim C3 (amended): when the upload succeeds but the persist fails,
the operation ends Rejected and NO delete is issued for the newly
uploaded reference: Create issues no delete at all, and Replace's only
possible delete is of the OLD reference (already issued before the
persist attempt), never of the new one. -/
theorem no_compensating_delete_on_persist_failure (env : Env) (req : Req)
    (f : UploadFile) (url e : String) (course : Course)
    (hf : req.file? = some f) (hm : multerAccepts f = true)
    (hup : env.uploadResult = .ok (some url)) (hurl : url ≠ "") :
    (env.createResult = .error e →
      handleCreate env req = (.rejected .persistError, [.uploadBlob, .persistCreate])) ∧
    (env.findResult = some course → env.updateResult = .error e →
      (handleUpdate env req).1 = .rejected .persistError ∧
      (handleUpdate env req).2 =
        .uploadBlob :: (oldDeleteEffects course ++ [.persistUpdate (some url)]) ∧
      ∀ pid, Effect.deleteBlob pid ∈ (handleUpdate env req).2 →
        ∃ old, course.image? = some old ∧ pid = publicIdOf old) := by
  have hbu : (url == "") = false := by simpa using hurl
  constructor
  · intro hc
    simp [handleCreate, hf, hm, createCourse, hup, isTruthy, hbu, hc]
  · intro hfind hupd
    refine ⟨?_, ?_, ?_⟩
    · simp [handleUpdate, hf, hm, updateCourse, hfind, hup, hbu, hupd]
    · simp [handleUpdate, hf, hm, updateCourse, hfind, hup, hbu, hupd]
    · intro pid hmem
      simp [handleUpdate, hf, hm, updateCourse, hfind, hup, hbu, hupd] at hmem
      cases himg : course.image? with
      | none => simp [oldDeleteEffects, himg] at hmem
      | some old =>
        by_cases hbo : old = ""
        · simp [oldDeleteEffects, himg, hbo] at hmem
        · have hbo' : (old == "") = false := by simpa using hbo
          simp only [oldDeleteEffects, himg, hbo', Bool.false_eq_true, if_false,
            extractPublicId, List.mem_singleton] at hmem
          refine ⟨old, rfl, ?_⟩
          cases hmem
          rfl

theorem no_compensating_delete_on_persist_failure_witness :
    handleCreate
        ⟨some ⟨some "h/old.jpg"⟩, .ok (some "h/new.png"), .error "vfail", .error "vfail",
          true, .ok ()⟩
        ⟨some ⟨"image/png", 100⟩, ⟨none⟩⟩ =
      (.rejected .persistError, [.uploadBlob, .persistCreate]) ∧
    (handleUpdate
        ⟨some ⟨some "h/old.jpg"⟩, .ok (some "h/new.png"), .error "vfail", .error "vfail",
          true, .ok ()⟩
        ⟨some ⟨"image/png", 100⟩, ⟨none⟩⟩).1 = .rejected .persistError :=
  have h := no_compensating_delete_on_persist_failure
    ⟨some ⟨some "h/old.jpg"⟩, .ok (some "h/new.png"), .error "vfail", .error "vfail",
      true, .ok ()⟩
    ⟨some ⟨"image/png", 100⟩, ⟨none⟩⟩
    ⟨"image/png", 100⟩ "h/new.png" "vfail" ⟨some "h/old.jpg"⟩
    rfl (by decide) rfl (by decide)
  ⟨h.1 rfl, (h.2 rfl rfl).1⟩

/-- Claim C4 (confirmed): a Replace with new bytes whose upload fails —
remote error, success response without a `secure_url`, or an empty
(falsy) `secure_url` — ends Rejected with effect trace exactly
`[uploadBlob]`: no record mutation is performed and no delete is issued
against the old reference. -/
theorem updateCourse_upload_failure_frame (env : Env) (req : Req)
    (f : UploadFile) (course : Course)
    (hf : req.file? = some f) (hm : multerAccepts f = true)
    (hfind : env.findResult = some course)
    (hup : (∃ e, env.uploadResult = .error e) ∨ env.uploadResult = .ok none ∨
           env.uploadResult = .ok (some "")) :
    handleUpdate env req = (.rejected .uploadFailed, [.uploadBlob]) := by
  rcases hup with ⟨e, he⟩ | he | he <;>
    simp [handleUpdate, hf, hm, updateCourse, hfind, he]

theorem updateCourse_upload_failure_frame_witness :
    handleUpdate
        ⟨some ⟨some "h/old.jpg"⟩, .error "timeout", .ok (), .ok (), true, .ok ()⟩
        ⟨some ⟨"image/png", 100⟩, ⟨none⟩⟩ =
      (.rejected .uploadFailed, [.uploadBlob]) :=
  updateCourse_upload_failure_frame _ _ ⟨"image/png", 100⟩ ⟨some "h/old.jpg"⟩
    rfl (by decide) rfl (Or.inl ⟨"timeout", rfl⟩)

/-- Claim C8 (confirmed): a Replace without new bytes issues exactly one
effect — the repository update, no blob upload and no blob delete —
carrying the existing record's image unless the payload supplies an
image field (an empty-object image field is dropped and also preserves
the existing image); the result follows the repository outcome. -/
theorem updateCourse_no_bytes_frame (env : Env) (req : Req) (course : Course)
    (hf : req.file? = none) (hfind : env.findResult = some course) :
    handleUpdate env req =
      (match env.updateResult with
       | .ok _ => Outcome.committed
       | .error _ => .rejected .persistError,
       [.persistUpdate (match normalizeImage req.payload with
                        | some s => some s
                        | none => course.image?)]) ∧
    (req.payload.image? = none ∨ req.payload.image? = some .emptyObj →
      (handleUpdate env req).2 = [.persistUpdate course.image?]) := by
  constructor
  · cases henv : env.updateResult <;> simp [handleUpdate, hf, updateCourse, hfind, henv]
  · intro himg
    have hnorm : normalizeImage req.payload = none := by
      rcases himg with h | h <;> simp [normalizeImage, h]
    cases henv : env.updateResult <;>
      simp [handleUpdate, hf, updateCourse, hfind, henv, hnorm]

theorem updateCourse_no_bytes_frame_witness :
    handleUpdate
        ⟨some ⟨some "h/old.jpg"⟩, .ok none, .ok (), .ok (), true, .ok ()⟩
        ⟨none, ⟨none⟩⟩ =
      (match (Except.ok () : Except String Unit) with
       | .ok _ => Outcome.committed
       | .error _ => .rejected .persistError,
       [.persistUpdate (match normalizeImage ⟨none⟩ with
                        | some s => some s
                        | none => (some "h/old.jpg" : Option String))]) :=
  (updateCourse_no_bytes_frame
    ⟨some ⟨some "h/old.jpg"⟩, .ok none, .ok (), .ok (), true, .ok ()⟩
    ⟨none, ⟨none⟩⟩ ⟨some "h/old.jpg"⟩ rfl rfl).1

/-- Claim C9 (confirmed): a file above 5 MiB or whose MIME type does not
start with image/ is rejected by multer's local gate: both the create
and the update request end uploadRejected with an EMPTY effect trace —
no network call is made and no record is created or mutated. -/
theorem upload_constraints_rejected_locally (env : Env) (req : Req) (f : UploadFile)
    (hf : req.file? = some f)
    (hbad : MAX_FILE_SIZE < f.size ∨ mimeIsImage f.mimeType = false) :
    handleCreate env req = (.rejected .uploadRejected, []) ∧
    handleUpdate env req = (.rejected .uploadRejected, []) := by
  have hacc : multerAccepts f = false := by
    unfold multerAccepts
    rcases hbad with h | h
    · simp [Nat.not_le.mpr h]
    · simp [h]
  simp [handleCreate, handleUpdate, hf, hacc]

theorem upload_constraints_rejected_locally_witness :
    handleCreate
        ⟨none, .ok (some "h/new.png"), .ok (), .ok (), true, .ok ()⟩
        ⟨some ⟨"image/jpeg", 11 * 1024 * 1024⟩, ⟨none⟩⟩ =
      (.rejected .uploadRejected, []) ∧
    handleUpdate
        ⟨none, .ok (some "h/new.png"), .ok (), .ok (), true, .ok ()⟩
        ⟨some ⟨"image/jpeg", 11 * 1024 * 1024⟩, ⟨none⟩⟩ =
      (.rejected .uploadRejected, []) :=
  upload_constraints_rejected_locally _ _ ⟨"image/jpeg", 11 * 1024 * 1024⟩
    rfl (Or.inl (by decide))

/-! ## Connection cache (config/db.js, promise-caching version)

`connectDB` keeps a module-level `cached = { conn, promise }`.  Its
synchronous segment — from the call up to the first `await` — runs
atomically on the JavaScript event loop: return `cached.conn` if set;
otherwise, if `cached.promise` is unset, begin a connect attempt (the
only I/O) and store the promise; in either case suspend on
`cached.promise`.  The resolution of the attempt is a second atomic
step: on success every waiter stores the handle into `cached.conn` and
returns it; on failure the attached catch handlers set
`cached.promise = null` and every waiter rethrows the error to its own
caller (there is no `process.exit` on this path; `server.js` catches
and logs).  The system below models an arbitrary interleaving of those
segments for N concurrent callers, recording in `started` the connect
attempts actually begun. -/

abbrev Handle := Nat

abbrev ConnErr := String

abbrev AttemptId := Nat

instance {ε α : Type} [DecidableEq ε] [DecidableEq α] : DecidableEq (Except ε α) :=
  fun a b =>
    match a, b with
    | .ok x, .ok y =>
      if h : x = y then .isTrue (by rw [h]) else .isFalse (by intro hc; cases hc; exact h rfl)
    | .error x, .error y =>
      if h : x = y then .isTrue (by rw [h]) else .isFalse (by intro hc; cases hc; exact h rfl)
    | .ok _, .error _ => .isFalse (by intro hc; cases hc)
    | .error _, .ok _ => .isFalse (by intro hc; cases hc)

inductive CallerPC
  | start
  | awaiting (a : AttemptId)
  | done (r : Except ConnErr Handle)
deriving DecidableEq

structure CacheState where
  conn : Option Handle
  promise : Option AttemptId
deriving DecidableEq

structure Sys where
  cache : CacheState
  callers : List CallerPC
  started : List AttemptId
  nextId : Nat
deriving DecidableEq

/-- N concurrent invocations against a cold cache: no handle, no
in-flight attempt, no connect started yet. -/
def coldSys (n : Nat) : Sys :=
  ⟨⟨none, none⟩, List.replicate n .start, [], 0⟩

/-- The synchronous segment of `connectDB` executed by caller `i` (db.js
lines 9-36): if `cached.conn` is set return it; else if
`cached.promise` is set await it; else start a new connect attempt,
publish its promise, and await it.  A caller not at its initial state
is unaffected. -/
def connectStep (s : Sys) (i : Nat) : Sys :=
  match s.callers[i]? with
  | some .start =>
    match s.cache.conn with
    | some h => { s with callers := s.callers.set i (.done (.ok h)) }
    | none =>
      match s.cache.promise with
      | some a => { s with callers := s.callers.set i (.awaiting a) }
      | none =>
        { cache := ⟨none, some s.nextId⟩,
          callers := s.callers.set i (.awaiting s.nextId),
          started := s.started ++ [s.nextId],
          nextId := s.nextId + 1 }
  | _ => s

/-- Run the synchronous segments of the listed callers in order. -/
def connectRun (s : Sys) (is : List Nat) : Sys :=
  is.foldl connectStep s

def resumeCaller (a : AttemptId) (out : Except ConnErr Handle) : CallerPC → CallerPC
  | .awaiting b => if b = a then .done out else .awaiting b
  | pc => pc

/-- Resolution of connect attempt `a` (db.js lines 25-40): on success
the waiters store the handle into `cached.conn` and return it; on
failure the catch handlers clear `cached.promise` and the waiters
rethrow the error.  All microtasks attached to the promise drain
atomically. -/
def resolveStep (s : Sys) (a : AttemptId) (out : Except ConnErr Handle) : Sys :=
  { s with
    cache := match out with
             | .ok h => ⟨some h, s.cache.promise⟩
             | .error _ => ⟨s.cache.conn, none⟩,
    callers := s.callers.map (resumeCaller a out) }

/-- Invariant of the pre-resolution phase starting from a cold cache:
no handle exists, and either nothing has started yet (all callers
initial) or exactly attempt 0 has started and every caller is initial
or awaiting attempt 0. -/
def ColdPhase (n : Nat) (s : Sys) : Prop :=
  s.cache.conn = none ∧ s.callers.length = n ∧
  ((s.cache.promise = none ∧ s.started = [] ∧ s.nextId = 0 ∧
      ∀ pc ∈ s.callers, pc = CallerPC.start) ∨
   (s.cache.promise = some 0 ∧ s.started = [0] ∧ s.nextId = 1 ∧
      ∀ pc ∈ s.callers, pc = CallerPC.start ∨ pc = CallerPC.awaiting 0))

theorem coldPhase_cold (n : Nat) : ColdPhase n (coldSys n) := by
  refine ⟨rfl, List.length_replicate n _, Or.inl ⟨rfl, rfl, rfl, ?_⟩⟩
  intro pc hpc
  exact List.eq_of_mem_replicate hpc

theorem coldPhase_step (n : Nat) (s : Sys) (i : Nat) (h : ColdPhase n s) :
    ColdPhase n (connectStep s i) := by
  obtain ⟨hconn, hlen, hcase⟩ := h
  cases hci : s.callers[i]? with
  | none =>
    simp only [connectStep, hci]
    exact ⟨hconn, hlen, hcase⟩
  | some pc =>
    cases pc with
    | start =>
      rcases hcase with ⟨hp, hs, hn, hall⟩ | ⟨hp, hs, hn, hall⟩
      · simp only [connectStep, hci, hconn, hp, hn, hs]
        refine ⟨rfl, by simp [hlen], Or.inr ⟨rfl, rfl, rfl, ?_⟩⟩
        intro pc hpc
        rcases List.mem_or_eq_of_mem_set hpc with hmem | heq
        · exact Or.inl (hall pc hmem)
        · exact Or.inr heq
      · simp only [connectStep, hci, hconn, hp]
        refine ⟨hconn, by simp [hlen], Or.inr ⟨hp, hs, hn, ?_⟩⟩
        intro pc hpc
        rcases List.mem_or_eq_of_mem_set hpc with hmem | heq
        · exact hall pc hmem
        · exact Or.inr heq
    | awaiting a =>
      simp only [connectStep, hci]
      exact ⟨hconn, hlen, hcase⟩
    | done r =>
      simp only [connectStep, hci]
      exact ⟨hconn, hlen, hcase⟩

theorem connectStep_preserves_awaiting (s : Sys) (i j : Nat)
    (h : s.callers[i]? = some (.awaiting 0)) :
    (connectStep s j).callers[i]? = some (.awaiting 0) := by
  cases hcj : s.callers[j]? with
  | none => simpa [connectStep, hcj] using h
  | some pc =>
    cases pc with
    | start =>
      have hji : j ≠ i := by
        intro heq
        rw [heq, h] at hcj
        simp at hcj
      cases hconn : s.cache.conn with
      | some hdl =>
        simp only [connectStep, hcj, hconn]
        rw [List.getElem?_set_ne hji]
        exact h
      | none =>
        cases hp : s.cache.promise with
        | some a =>
          simp only [connectStep, hcj, hconn, hp]
          rw [List.getElem?_set_ne hji]
          exact h
        | none =>
          simp only [connectStep, hcj, hconn, hp]
          rw [List.getElem?_set_ne hji]
          exact h
    | awaiting a => simpa [connectStep, hcj] using h
    | done r => simpa [connectStep, hcj] using h

theorem connectStep_sets_awaiting (n : Nat) (s : Sys) (i : Nat)
    (h : ColdPhase n s) (hi : i < n) :
    (connectStep s i).callers[i]? = some (.awaiting 0) := by
  obtain ⟨hconn, hlen, hcase⟩ := h
  have hilen : i < s.callers.length := by rw [hlen]; exact hi
  have hget : s.callers[i]? = some s.callers[i] := List.getElem?_eq_getElem hilen
  have hmem : s.callers[i] ∈ s.callers := List.getElem_mem hilen
  rcases hcase with ⟨hp, hs, hn, hall⟩ | ⟨hp, hs, hn, hall⟩
  · have hpc : s.callers[i] = CallerPC.start := hall _ hmem
    simp only [connectStep, hget, hpc, hconn, hp, hn]
    exact List.getElem?_set_self hilen
  · rcases hall _ hmem with hpc | hpc
    · simp only [connectStep, hget, hpc, hconn, hp]
      exact List.getElem?_set_self hilen
    · simp only [connectStep, hget, hpc]

theorem connectRun_coldPhase (n : Nat) (is : List Nat) (s : Sys) (h : ColdPhase n s) :
    ColdPhase n (connectRun s is) := by
  induction is generalizing s with
  | nil => exact h
  | cons j rest ih => exact ih _ (coldPhase_step n s j h)

theorem connectRun_preserves_awaiting (s : Sys) (is : List Nat) (i : Nat)
    (h : s.callers[i]? = some (.awaiting 0)) :
    (connectRun s is).callers[i]? = some (.awaiting 0) := by
  induction is generalizing s with
  | nil => exact h
  | cons j rest ih => exact ih _ (connectStep_preserves_awaiting s i j h)

theorem connectRun_awaiting (n : Nat) (is : List Nat) (s : Sys) (i : Nat)
    (h : ColdPhase n s) (hi : i < n) (hmem : i ∈ is) :
    (connectRun s is).callers[i]? = some (.awaiting 0) := by
  induction is generalizing s with
  | nil => cases hmem
  | cons j rest ih =>
    by_cases hin : i ∈ rest
    · exact ih _ (coldPhase_step n s j h) hin
    · have hij : i = j := by
        rcases List.mem_cons.mp hmem with h1 | h1
        · exact h1
        · exact absurd h1 hin
      subst hij
      exact connectRun_preserves_awaiting _ rest i (connectStep_sets_awaiting n s i h hi)

/-- Composite description of the state after every one of N concurrent
callers has run its synchronous segment against a cold cache, before
the single attempt resolves. -/
theorem connectRun_cold_spec (n : Nat) (is : List Nat)
    (hn : 0 < n) (hcover : ∀ i, i < n → i ∈ is) :
    (connectRun (coldSys n) is).cache.conn = none ∧
    (connectRun (coldSys n) is).started = [0] ∧
    (connectRun (coldSys n) is).nextId = 1 ∧
    (connectRun (coldSys n) is).callers.length = n ∧
    ∀ pc ∈ (connectRun (coldSys n) is).callers, pc = CallerPC.awaiting 0 := by
  have hphase := connectRun_coldPhase n is (coldSys n) (coldPhase_cold n)
  have hawait : ∀ i, i < n →
      (connectRun (coldSys n) is).callers[i]? = some (.awaiting 0) :=
    fun i hi => connectRun_awaiting n is (coldSys n) i (coldPhase_cold n) hi (hcover i hi)
  obtain ⟨hconn, hlen, hcase⟩ := hphase
  have hmemall : ∀ pc ∈ (connectRun (coldSys n) is).callers, pc = CallerPC.awaiting 0 := by
    intro pc hpc
    obtain ⟨i, hi⟩ := List.mem_iff_getElem?.mp hpc
    have hilen : i < (connectRun (coldSys n) is).callers.length := by
      obtain ⟨hw, -⟩ := List.getElem?_eq_some_iff.mp hi
      exact hw
    have := hawait i (hlen ▸ hilen)
    rw [hi] at this
    exact (Option.some.injEq _ _).mp this
  rcases hcase with ⟨hp, hs, hn1, hall⟩ | ⟨hp, hs, hn1, hall⟩
  · exfalso
    have h0 := hawait 0 hn
    have h0mem : CallerPC.awaiting 0 ∈ (connectRun (coldSys n) is).callers := by
      exact List.mem_iff_getElem?.mpr ⟨0, h0⟩
    have := hall _ h0mem
    simp at this
  · exact ⟨hconn, hs, hn1, hlen, hmemall⟩

/-- Claim C6 (confirmed): for any interleaving in which N concurrent
callers each run the synchronous segment of `connectDB` against a cold
cache before the attempt resolves, exactly one underlying connect
attempt is started (the `started` log is the single attempt `[0]`), and
once that attempt resolves every caller holds the same outcome. -/
theorem connectDB_at_most_one_connect (n : Nat) (is : List Nat)
    (out : Except ConnErr Handle) (hn : 0 < n) (hcover : ∀ i, i < n → i ∈ is) :
    (resolveStep (connectRun (coldSys n) is) 0 out).started = [0] ∧
    ∀ pc ∈ (resolveStep (connectRun (coldSys n) is) 0 out).callers,
      pc = CallerPC.done out := by
  obtain ⟨hconn, hs, hn1, hlen, hall⟩ := connectRun_cold_spec n is hn hcover
  constructor
  · simpa [resolveStep] using hs
  · intro pc hpc
    simp only [resolveStep, List.mem_map] at hpc
    obtain ⟨pc', hpc', hres⟩ := hpc
    rw [hall pc' hpc'] at hres
    simpa [resumeCaller] using hres.symm

theorem connectDB_at_most_one_connect_witness :
    (0 < 2 ∧ ∀ i, i < 2 → i ∈ [1, 0, 1]) ∧
    ((resolveStep (connectRun (coldSys 2) [1, 0, 1]) 0 (.ok 5)).started = [0] ∧
      ∀ pc ∈ (resolveStep (connectRun (coldSys 2) [1, 0, 1]) 0 (.ok 5)).callers,
        pc = CallerPC.done (.ok 5)) :=
  ⟨⟨by decide, by decide⟩,
    connectDB_at_most_one_connect 2 [1, 0, 1] (.ok 5) (by decide) (by decide)⟩

/-- Claim C7 (confirmed): when the connect attempt fails, every caller
receives the error as an ordinary outcome (`connectDB` rethrows; this
path contains no process exit — `server.js` catches and logs), the
cached handle and the pending attempt are both cleared, and a
subsequent caller's synchronous segment starts a fresh connect attempt
(the `started` log grows from `[0]` to `[0, 1]`) — the failure is never
cached. -/
theorem connectDB_failure_not_cached (n : Nat) (is : List Nat) (e : ConnErr)
    (hn : 0 < n) (hcover : ∀ i, i < n → i ∈ is) :
    (∀ pc ∈ (resolveStep (connectRun (coldSys n) is) 0 (.error e)).callers,
      pc = CallerPC.done (.error e)) ∧
    (resolveStep (connectRun (coldSys n) is) 0 (.error e)).cache.conn = none ∧
    (resolveStep (connectRun (coldSys n) is) 0 (.error e)).cache.promise = none ∧
    (connectStep
        { resolveStep (connectRun (coldSys n) is) 0 (.error e) with
          callers :=
            (resolveStep (connectRun (coldSys n) is) 0 (.error e)).callers ++
              [CallerPC.start] } n).started = [0, 1] := by
  obtain ⟨hconn, hs, hn1, hlen, hall⟩ := connectRun_cold_spec n is hn hcover
  have hlen2 :
      (resolveStep (connectRun (coldSys n) is) 0 (.error e)).callers.length = n := by
    simpa [resolveStep, List.length_map] using hlen
  have hget :
      ((resolveStep (connectRun (coldSys n) is) 0 (.error e)).callers ++
        [CallerPC.start])[n]? = some CallerPC.start := by
    have hcat := List.getElem?_concat_length
      (resolveStep (connectRun (coldSys n) is) 0 (.error e)).callers CallerPC.start
    rwa [hlen2] at hcat
  refine ⟨?_, ?_, ?_, ?_⟩
  · intro pc hpc
    simp only [resolveStep, List.mem_map] at hpc
    obtain ⟨pc', hpc', hres⟩ := hpc
    rw [hall pc' hpc'] at hres
    simpa [resumeCaller] using hres.symm
  · simpa [resolveStep] using hconn
  · simp [resolveStep]
  · simp only [connectStep, hget]
    have hcconn :
        (resolveStep (connectRun (coldSys n) is) 0 (.error e)).cache.conn = none := by
      simpa [resolveStep] using hconn
    have hcprom :
        (resolveStep (connectRun (coldSys n) is) 0 (.error e)).cache.promise = none := by
      simp [resolveStep]
    have hcstart :
        (resolveStep (connectRun (coldSys n) is) 0 (.error e)).started = [0] := by
      simpa [resolveStep] using hs
    have hcnext :
        (resolveStep (connectRun (coldSys n) is) 0 (.error e)).nextId = 1 := by
      simpa [resolveStep] using hn1
    simp only [hcconn, hcprom, hcstart, hcnext]
    rfl

theorem connectDB_failure_not_cached_witness :
    (0 < 1 ∧ ∀ i, i < 1 → i ∈ [0]) ∧
    ((∀ pc ∈ (resolveStep (connectRun (coldSys 1) [0]) 0 (.error "refused")).callers,
        pc = CallerPC.done (.error "refused")) ∧
      (resolveStep (connectRun (coldSys 1) [0]) 0 (.error "refused")).cache.conn = none ∧
      (resolveStep (connectRun (coldSys 1) [0]) 0 (.error "refused")).cache.promise = none ∧
      (connectStep
          { resolveStep (connectRun (coldSys 1) [0]) 0 (.error "refused") with
            callers :=
              (resolveStep (connectRun (coldSys 1) [0]) 0 (.error "refused")).callers ++
                [CallerPC.start] } 1).started = [0, 1]) :=
  ⟨⟨by decide, by decide⟩,
    connectDB_failure_not_cached 1 [0] "refused" (by decide) (by decide)⟩
